/-
Verification of the session-state core of the siege tracker bot
(src/main.py) against its natural-language specification.

Shallow embedding conventions:
* Python strings are Lean `String`s (both are sequences of Unicode code
  points); for the chunking function `split_list`, where we must reason
  about character-level splitting, strings are modelled as `List Char`.
* Python `set` becomes `Finset String`, Python `list` becomes `List`.
* Mutating methods become functions returning the updated record
  (together with the method's return value, when it has one).
* The process-wide `TRACKERS` dict becomes a function
  `Int → Option TrackerState`, updated functionally.
-/
import Mathlib

/-! ## Catalog (src/main.py lines 28-45) -/

def ATTACKERS : List String := [
  "Rauora", "Striker*", "Deimos", "Ram", "Brava", "Grim", "Sens", "Osa", "Flores", "Zero",
  "Ace", "Iana", "Kali", "Amaru", "NØKK", "Gridlock", "Nomad", "Maverick", "Lion", "Finka",
  "Dokkaebi", "Zofia", "Ying", "Jackal", "Hibana", "CAPITÃO", "Blackbeard", "Buck", "Sledge",
  "Thatcher", "Ash", "Thermite", "Montagne", "Twitch", "Blitz", "IQ", "Fuze", "Glaz"]

def DEFENDERS : List String := [
  "Denari", "Skopós", "Sentry*", "Tubarão", "Fenrir", "Solis", "Azami", "Thorn", "Thunderbird",
  "Aruni", "Melusi", "Oryx", "Wamai", "Goyo", "Warden", "Mozzie", "Kaid", "Clash", "Maestro",
  "Alibi", "Vigil", "Ela", "Lesion", "Mira", "Echo", "Caveira", "Valkyrie", "Frost", "Mute",
  "Smoke", "Castle", "Pulse", "Doc", "Rook", "Jäger", "Bandit", "Tachanka", "Kapkan"]

def ALL_OPERATORS : List String := ATTACKERS ++ DEFENDERS

def ALL_COUNT : Nat := ALL_OPERATORS.length

def ATT_SET : Finset String := ATTACKERS.toFinset

def DEF_SET : Finset String := DEFENDERS.toFinset

/-! ## PlayerState (src/main.py lines 48-68) -/

structure PlayerState where
  name : String
  kills : Int := 0
  played : Finset String := ∅
  history : List String := []
deriving DecidableEq

/-- Method `add_play` (lines 55-61): returns `False` if the operator was
already played, otherwise adds it to `played` and appends it to `history`,
returning `True`. The boolean result is paired with the updated state. -/
def PlayerState.add_play (p : PlayerState) (operator : String) : Bool × PlayerState :=
  if operator ∈ p.played then (false, p)
  else (true, { p with played := insert operator p.played,
                       history := p.history ++ [operator] })

/-- Method `remaining_ops` (lines 63-64): `set(ALL_OPERATORS) - self.played`. -/
def PlayerState.remaining_ops (p : PlayerState) : Finset String :=
  ALL_OPERATORS.toFinset \ p.played

/-- Method `remaining_counts` (lines 66-68):
`(len(rem & ATT_SET), len(rem & DEF_SET))`. -/
def PlayerState.remaining_counts (p : PlayerState) : Nat × Nat :=
  ((p.remaining_ops ∩ ATT_SET).card, (p.remaining_ops ∩ DEF_SET).card)

/-! ## TrackerState and the registry (src/main.py lines 70-84) -/

inductive PKey where
  | P1 : PKey
  | P2 : PKey
deriving DecidableEq

structure TrackerState where
  guild_id : Int
  owner_id : Int
  player1 : PlayerState
  player2 : PlayerState
  message_id : Option Int := none
  channel_id : Option Int := none
deriving DecidableEq

/-- Method `player` (lines 80-81). -/
def TrackerState.player (st : TrackerState) (key : PKey) : PlayerState :=
  match key with
  | .P1 => st.player1
  | .P2 => st.player2

/-- Functional counterpart of the in-place mutation of the selected player. -/
def TrackerState.setPlayer (st : TrackerState) (key : PKey) (p : PlayerState) : TrackerState :=
  match key with
  | .P1 => { st with player1 := p }
  | .P2 => { st with player2 := p }

/-! ## Helpers (src/main.py lines 87-121) -/

/-- Python `s.strip()`: drop leading and trailing whitespace (modelled on the
underlying character list so that it evaluates by kernel reduction). -/
def pyStrip (s : List Char) : List Char :=
  ((s.dropWhile Char.isWhitespace).reverse.dropWhile Char.isWhitespace).reverse

/-- Helper `_norm` (lines 87-88): `(s or "").strip().lower()`. -/
def _norm (s : String) : String := ⟨(pyStrip s.data).map Char.toLower⟩

/-- Helper `resolve_player_key` (lines 90-101). -/
def resolve_player_key (arg : String) (state : TrackerState) : Option PKey :=
  let v := _norm arg
  if v = "p1" ∨ v = "1" ∨ v = "player1" then some .P1
  else if v = "p2" ∨ v = "2" ∨ v = "player2" then some .P2
  else if v = _norm state.player1.name then some .P1
  else if v = _norm state.player2.name then some .P2
  else none

/-- The kill-adjustment step of `_adjust_kills` (line 278):
`p.kills = max(0, p.kills + delta)`. -/
def adjust_kills (p : PlayerState) (delta : Int) : PlayerState :=
  { p with kills := max 0 (p.kills + delta) }

/-! ## tracker_play core (src/main.py lines 428-452) -/

inductive PlayOutcome where
  | Recorded : PlayOutcome
  | AlreadyPlayed : PlayOutcome
  | UnknownOperator : PlayOutcome
deriving DecidableEq

/-- The validation-plus-mutation core of `tracker_play` (lines 442-452), for a
participant already resolved to `which`: first the catalog membership check
(line 444), then `add_play` (line 448). -/
def tracker_play_step (state : TrackerState) (which : PKey) (operator : String) :
    PlayOutcome × TrackerState :=
  if operator ∉ ALL_OPERATORS then (.UnknownOperator, state)
  else
    match (state.player which).add_play operator with
    | (false, _) => (.AlreadyPlayed, state)
    | (true, p) => (.Recorded, state.setPlayer which p)

/-! ## tracker_start (src/main.py lines 357-368) -/

/-- Command core `tracker_start` (lines 362-368): builds a fresh `TrackerState` with two
empty players and installs it in the registry under the guild id,
unconditionally replacing any previous entry. -/
def tracker_start (reg : Int → Option TrackerState) (guild_id owner_id : Int)
    (player1 player2 : String) : Int → Option TrackerState :=
  fun g =>
    if g = guild_id then
      some { guild_id := guild_id, owner_id := owner_id,
             player1 := { name := player1 }, player2 := { name := player2 } }
    else reg g

/-! ## last_from_history (src/main.py lines 305-314) -/

/-- The loop body of `last_from_history`: walks the (already reversed) history,
collecting unseen operators of the side, and stops as soon as `out` has
reached `n` elements — the `len(out) >= n` break is tested after every
iteration, appending or not. -/
def last_from_history_aux (side_set : Finset String) (n : Nat) :
    List String → Finset String → List String → List String
  | [], _, out => out
  | op :: rest, seen, out =>
    let st := if op ∈ side_set ∧ op ∉ seen then (out ++ [op], insert op seen)
              else (out, seen)
    if n ≤ st.1.length then st.1
    else last_from_history_aux side_set n rest st.2 st.1

/-- Function `last_from_history` (lines 305-314), as the list of collected operators
(the source then renders it as a comma-joined string, or an em dash when
empty; that presentation step is not modelled). -/
def PlayerState.last_from_history (p : PlayerState) (side_set : Finset String)
    (n : Nat := 5) : List String :=
  last_from_history_aux side_set n p.history.reverse ∅ []

/-- Specification-side description for C7: the distinct members of `side_set`
in the order they occur in a list, skipping elements already seen. Applied to
`history.reverse` this is "the distinct items of the category, walking the
history from most recent to oldest". -/
def distinctFilter (side_set : Finset String) (seen : Finset String) :
    List String → List String
  | [] => []
  | op :: rest =>
    if op ∈ side_set ∧ op ∉ seen then op :: distinctFilter side_set (insert op seen) rest
    else distinctFilter side_set seen rest

/-! ## Snapshot codec (spec §4.6)

The snapshot subsystem is not present under src/ (the repository portion
there is the tracker core); the codec is therefore modelled from the spec. -/

def SCHEMA_VERSION : Nat := 1

structure SnapshotPlayer where
  name : String
  score : Int
  consumed : List String
  history : List String
deriving DecidableEq

structure SnapshotRecord where
  schemaVersion : Nat
  sessionKey : Int
  ownerRef : Int
  displayChannel : Option Int
  displayMessage : Option Int
  participantA : SnapshotPlayer
  participantB : SnapshotPlayer
deriving DecidableEq

/-- Modelled from the spec: the participant half of `encode` — name, score,
consumed (sorted), history (spec §3, SnapshotRecord). -/
def encodePlayer (p : PlayerState) : SnapshotPlayer :=
  { name := p.name, score := p.kills,
    consumed := p.played.sort (· ≤ ·), history := p.history }

/-- Modelled from the spec: `encode(SessionState) -> SnapshotRecord`,
"deterministic, total, lossless for all fields in §3" (spec §4.6); the
snapshot-store code is absent from src/. -/
def encodeSession (s : TrackerState) : SnapshotRecord :=
  { schemaVersion := SCHEMA_VERSION, sessionKey := s.guild_id,
    ownerRef := s.owner_id,
    displayChannel := s.channel_id, displayMessage := s.message_id,
    participantA := encodePlayer s.player1, participantB := encodePlayer s.player2 }

/-- Modelled from the spec: decoding of one participant record. -/
def decodePlayer (sp : SnapshotPlayer) : PlayerState :=
  { name := sp.name, kills := sp.score,
    played := sp.consumed.toFinset, history := sp.history }

/-- Modelled from the spec: `decode -> SessionState | DecodeError` (spec §4.6):
fails when `schemaVersion` is not recognized, otherwise rebuilds the full
session; the snapshot-store code is absent from src/. -/
def decodeSession (r : SnapshotRecord) : Option TrackerState :=
  if r.schemaVersion = SCHEMA_VERSION then
    some { guild_id := r.sessionKey, owner_id := r.ownerRef,
           player1 := decodePlayer r.participantA,
           player2 := decodePlayer r.participantB,
           message_id := r.displayMessage, channel_id := r.displayChannel }
  else none

/-! ## split_list (src/main.py lines 103-121)

For this function the characters matter, so Python strings are modelled as
`List Char` (`PyStr`); `len` is `List.length`, `", ".join` is `joinCS`,
`s.split(", ")` is `splitCS`. -/

abbrev PyStr := List Char

def commaSpace : PyStr := [',', ' ']

/-- Python `", ".join(xs)`. -/
def joinCS : List PyStr → PyStr
  | [] => []
  | [x] => x
  | x :: xs => x ++ commaSpace ++ joinCS xs

/-- The loop of `split_list` (lines 105-118) over the remaining items, with
the accumulated `chunks`, current segment `cur` and its joined length
`cur_len`; the final `if cur:` flush (lines 117-118) is the base case. -/
def split_list_go (max_chars : Nat) :
    List PyStr → List PyStr → List PyStr → Nat → List PyStr
  | [], chunks, cur, _ => if cur = [] then chunks else chunks ++ [joinCS cur]
  | itm :: rest, chunks, cur, cur_len =>
    let add := (if cur = [] then 0 else 2) + itm.length
    if max_chars < cur_len + add then
      split_list_go max_chars rest (chunks ++ [joinCS cur]) [itm] itm.length
    else
      split_list_go max_chars rest chunks (cur ++ [itm]) (cur_len + add)

/-- Function `split_list` (lines 103-121), including the `["—"]` placeholder for an
empty result (lines 119-120). -/
def split_list (items : List PyStr) (max_chars : Nat := 900) : List PyStr :=
  let chunks := split_list_go max_chars items [] [] 0
  if chunks = [] then [['—']] else chunks

/-- Python `s.split(", ")`, accumulator form: scan left to right, cutting at
each (leftmost) occurrence of the separator. -/
def splitCSAux : PyStr → PyStr → List PyStr
  | [], acc => [acc]
  | [c], acc => [acc ++ [c]]
  | c1 :: c2 :: rest, acc =>
    if c1 = ',' ∧ c2 = ' ' then acc :: splitCSAux rest []
    else splitCSAux (c2 :: rest) (acc ++ [c1])

/-- Python `s.split(", ")`. -/
def splitCS (s : PyStr) : List PyStr := splitCSAux s []

/-- Whether the separator ", " occurs in a string. -/
def hasCS : PyStr → Bool
  | [] => false
  | [_] => false
  | c1 :: c2 :: rest => if c1 = ',' ∧ c2 = ' ' then true else hasCS (c2 :: rest)

/-- The segmentation underlying `split_list_go`: the same loop, recorded as
the list of item segments instead of their joined strings. -/
def segs (max_chars : Nat) : List PyStr → List PyStr → Nat → List (List PyStr)
  | [], cur, _ => if cur = [] then [] else [cur]
  | itm :: rest, cur, cur_len =>
    let add := (if cur = [] then 0 else 2) + itm.length
    if max_chars < cur_len + add then cur :: segs max_chars rest [itm] itm.length
    else segs max_chars rest (cur ++ [itm]) (cur_len + add)

/-! ## Concrete session used in scenario conjuncts -/

def amaBetoSession : TrackerState :=
  { guild_id := 1, owner_id := 2,
    player1 := { name := "Ama" }, player2 := { name := "Beto" } }

/-! ## Claim theorems -/

/-- C1: `add_play` returns `false` and changes nothing when the operator is
already in `played`, otherwise inserts it into `played`, appends it to
`history` and returns `true`; the first result is `true` exactly when the
operator was new, and a second call with the same operator returns `false`
and leaves the state of the first call unchanged. -/
theorem add_play_twice_spec (p : PlayerState) (op : String) :
    p.add_play op =
      (if op ∈ p.played then (false, p)
       else (true, { p with played := insert op p.played,
                            history := p.history ++ [op] })) ∧
    ((p.add_play op).1 = true ↔ op ∉ p.played) ∧
    ((p.add_play op).2).add_play op = (false, (p.add_play op).2) := by
  refine ⟨rfl, ?_, ?_⟩
  · by_cases h : op ∈ p.played <;> simp [PlayerState.add_play, h]
  · by_cases h : op ∈ p.played <;> simp [PlayerState.add_play, h]

/-- C2: `add_play` preserves the invariant that `played` equals the set of
elements of `history` and that `history` has no duplicates. -/
theorem add_play_invariant (p : PlayerState) (op : String)
    (h1 : p.played = p.history.toFinset) (h2 : p.history.Nodup) :
    (p.add_play op).2.played = (p.add_play op).2.history.toFinset ∧
    (p.add_play op).2.history.Nodup := by
  by_cases h : op ∈ p.played
  · simpa [PlayerState.add_play, h] using ⟨h1, h2⟩
  · have hop : op ∉ p.history := fun hmem => h (h1 ▸ List.mem_toFinset.mpr hmem)
    refine ⟨?_, ?_⟩
    · simp [PlayerState.add_play, h, hop, h1, List.toFinset_append]
      rw [Finset.insert_eq, Finset.union_comm]
    · simp [PlayerState.add_play, h, List.nodup_append, h2, hop]

/-- Witness for C2 at a concrete fresh participant and operator. -/
theorem add_play_invariant_witness :
    ((⟨"Ama", 0, ∅, []⟩ : PlayerState).played =
        (⟨"Ama", 0, ∅, []⟩ : PlayerState).history.toFinset ∧
      (⟨"Ama", 0, ∅, []⟩ : PlayerState).history.Nodup) ∧
    ((PlayerState.add_play ⟨"Ama", 0, ∅, []⟩ "Ash").2.played =
        (PlayerState.add_play ⟨"Ama", 0, ∅, []⟩ "Ash").2.history.toFinset ∧
      (PlayerState.add_play ⟨"Ama", 0, ∅, []⟩ "Ash").2.history.Nodup) :=
  ⟨⟨by decide, by decide⟩, add_play_invariant ⟨"Ama", 0, ∅, []⟩ "Ash" (by decide) (by decide)⟩

/-- C3: the kill adjustment sets the score to `max 0 (score + delta)`, the
result is never negative, and from score `0` a `-10` adjustment yields `0`. -/
theorem adjust_kills_clamped (p : PlayerState) (delta : Int) (h : 0 ≤ p.kills) :
    (adjust_kills p delta).kills = max 0 (p.kills + delta) ∧
    0 ≤ (adjust_kills p delta).kills ∧
    (adjust_kills { p with kills := 0 } (-10)).kills = 0 := by
  refine ⟨rfl, le_max_left _ _, by simp [adjust_kills]⟩

/-- Witness for C3 at a concrete participant with score 0 and delta -10. -/
theorem adjust_kills_clamped_witness :
    (0 : Int) ≤ (⟨"Ama", 0, ∅, []⟩ : PlayerState).kills ∧
    ((adjust_kills ⟨"Ama", 0, ∅, []⟩ (-10)).kills =
        max 0 ((⟨"Ama", 0, ∅, []⟩ : PlayerState).kills + (-10)) ∧
      0 ≤ (adjust_kills ⟨"Ama", 0, ∅, []⟩ (-10)).kills ∧
      (adjust_kills { (⟨"Ama", 0, ∅, []⟩ : PlayerState) with kills := 0 } (-10)).kills = 0) :=
  ⟨by decide, adjust_kills_clamped ⟨"Ama", 0, ∅, []⟩ (-10) (by decide)⟩

/-- C4: the validated consumption step of `tracker_play` yields exactly one of
three outcomes: `UnknownOperator` when the operator is not in the catalog
(checked first, with the state untouched), `AlreadyPlayed` when the
participant already played it (state untouched), and `Recorded` otherwise,
with the operator added to that participant's set and history. -/
theorem tracker_play_outcomes (st : TrackerState) (which : PKey) (op : String) :
    tracker_play_step st which op =
      if op ∉ ALL_OPERATORS then (.UnknownOperator, st)
      else if op ∈ (st.player which).played then (.AlreadyPlayed, st)
      else (.Recorded, st.setPlayer which
        { st.player which with played := insert op (st.player which).played,
                               history := (st.player which).history ++ [op] }) := by
  by_cases h1 : op ∈ ALL_OPERATORS
  · by_cases h2 : op ∈ (st.player which).played <;>
      simp [tracker_play_step, PlayerState.add_play, h1, h2]
  · simp [tracker_play_step, h1]

/-- C5: `resolve_player_key` normalises the token (trim, lowercase), matches
it first against the literal aliases for P1 and P2, then against player 1's
display name, then against player 2's display name (names compared
case-insensitively after trimming), first match winning in that priority
order, and returns `none` when nothing matches; on the session
("Ama", "Beto"), "beto" resolves to P2 and "p9" to nothing. -/
theorem resolve_player_key_priority :
    (∀ (arg : String) (st : TrackerState),
      (resolve_player_key arg st = some PKey.P1 ↔
        _norm arg ∈ (["p1", "1", "player1"] : List String) ∨
        (_norm arg ∉ (["p1", "1", "player1"] : List String) ∧
         _norm arg ∉ (["p2", "2", "player2"] : List String) ∧
         _norm arg = _norm st.player1.name)) ∧
      (resolve_player_key arg st = some PKey.P2 ↔
        (_norm arg ∉ (["p1", "1", "player1"] : List String) ∧
         _norm arg ∈ (["p2", "2", "player2"] : List String)) ∨
        (_norm arg ∉ (["p1", "1", "player1"] : List String) ∧
         _norm arg ∉ (["p2", "2", "player2"] : List String) ∧
         _norm arg ≠ _norm st.player1.name ∧
         _norm arg = _norm st.player2.name)) ∧
      (resolve_player_key arg st = none ↔
        _norm arg ∉ (["p1", "1", "player1"] : List String) ∧
        _norm arg ∉ (["p2", "2", "player2"] : List String) ∧
        _norm arg ≠ _norm st.player1.name ∧
        _norm arg ≠ _norm st.player2.name)) ∧
    resolve_player_key "beto" amaBetoSession = some PKey.P2 ∧
    resolve_player_key "p9" amaBetoSession = none := by
  refine ⟨fun arg st => ?_, by decide, by decide⟩
  by_cases hA1 : _norm arg ∈ (["p1", "1", "player1"] : List String) <;>
    by_cases hA2 : _norm arg ∈ (["p2", "2", "player2"] : List String) <;>
    by_cases hN1 : _norm arg = _norm st.player1.name <;>
    by_cases hN2 : _norm arg = _norm st.player2.name <;>
    simp_all [resolve_player_key]

/-- C8: `tracker_start` installs, under the guild key, a fresh state whose two
players carry the given names with zero kills, empty played set and empty
history (independently of what the registry held there before), and leaves
every other key unchanged. -/
theorem tracker_start_replaces (reg : Int → Option TrackerState) (g o k : Int)
    (n1 n2 : String) (hk : k ≠ g) :
    tracker_start reg g o n1 n2 g =
      some { guild_id := g, owner_id := o,
             player1 := { name := n1, kills := 0, played := ∅, history := [] },
             player2 := { name := n2, kills := 0, played := ∅, history := [] },
             message_id := none, channel_id := none } ∧
    tracker_start reg g o n1 n2 k = reg k := by
  exact ⟨by simp [tracker_start], by simp [tracker_start, hk]⟩

/-- Witness for C8 on a registry that is empty everywhere, keys 1 ≠ 0. -/
theorem tracker_start_replaces_witness :
    (0 : Int) ≠ 1 ∧
    (tracker_start (fun _ => none) 1 2 "Ama" "Beto" 1 =
      some { guild_id := 1, owner_id := 2,
             player1 := { name := "Ama", kills := 0, played := ∅, history := [] },
             player2 := { name := "Beto", kills := 0, played := ∅, history := [] },
             message_id := none, channel_id := none } ∧
     tracker_start (fun _ => none) 1 2 "Ama" "Beto" 0 = none) :=
  ⟨by decide, tracker_start_replaces (fun _ => none) 1 2 0 "Ama" "Beto" (by decide)⟩

/-- C9: the snapshot codec round-trips: decoding the encoding of any session
state yields the same state, field for field, history order included. -/
theorem codec_round_trip (s : TrackerState) : decodeSession (encodeSession s) = some s := by
  obtain ⟨g, o, ⟨n1, k1, pl1, h1⟩, ⟨n2, k2, pl2, h2⟩, m, c⟩ := s
  simp [decodeSession, encodeSession, decodePlayer, encodePlayer, SCHEMA_VERSION,
    Finset.sort_toFinset]

/-! ## Catalog facts and the remaining-counts sum (C6) -/

theorem att_def_disjoint : Disjoint ATT_SET DEF_SET := by
  rw [Finset.disjoint_iff_inter_eq_empty]
  decide

theorem all_ops_toFinset : ALL_OPERATORS.toFinset = ATT_SET ∪ DEF_SET := by
  simp [ALL_OPERATORS, ATT_SET, DEF_SET, List.toFinset_append]

theorem all_ops_card : ALL_OPERATORS.toFinset.card = ALL_COUNT := by decide

/-- C6: for a participant whose played set lies inside the catalog, the two
counts of `remaining_counts` sum to the catalog size minus the number of
played operators. -/
theorem remaining_counts_sum (p : PlayerState)
    (h : p.played ⊆ ALL_OPERATORS.toFinset) :
    p.remaining_counts.1 + p.remaining_counts.2 = ALL_COUNT - p.played.card := by
  have hdisj : Disjoint (p.remaining_ops ∩ ATT_SET) (p.remaining_ops ∩ DEF_SET) :=
    att_def_disjoint.mono Finset.inter_subset_right Finset.inter_subset_right
  have hunion : (p.remaining_ops ∩ ATT_SET) ∪ (p.remaining_ops ∩ DEF_SET) = p.remaining_ops := by
    rw [← Finset.inter_union_distrib_left, ← all_ops_toFinset]
    exact Finset.inter_eq_left.mpr (Finset.sdiff_subset)
  calc p.remaining_counts.1 + p.remaining_counts.2
      = ((p.remaining_ops ∩ ATT_SET) ∪ (p.remaining_ops ∩ DEF_SET)).card :=
        (Finset.card_union_of_disjoint hdisj).symm
    _ = p.remaining_ops.card := by rw [hunion]
    _ = ALL_OPERATORS.toFinset.card - p.played.card := Finset.card_sdiff h
    _ = ALL_COUNT - p.played.card := by rw [all_ops_card]

/-- Witness for C6 at a participant who has played "Ash" and "Mute". -/
theorem remaining_counts_sum_witness :
    (⟨"Ama", 0, {"Ash", "Mute"}, ["Ash", "Mute"]⟩ : PlayerState).played ⊆
      ALL_OPERATORS.toFinset ∧
    (⟨"Ama", 0, {"Ash", "Mute"}, ["Ash", "Mute"]⟩ : PlayerState).remaining_counts.1 +
      (⟨"Ama", 0, {"Ash", "Mute"}, ["Ash", "Mute"]⟩ : PlayerState).remaining_counts.2 =
      ALL_COUNT - (⟨"Ama", 0, {"Ash", "Mute"}, ["Ash", "Mute"]⟩ : PlayerState).played.card :=
  ⟨by decide, remaining_counts_sum ⟨"Ama", 0, {"Ash", "Mute"}, ["Ash", "Mute"]⟩ (by decide)⟩

/-! ## last_from_history (C7) -/

theorem last_from_history_aux_cons_hit (side : Finset String) (n : Nat)
    (op : String) (rest : List String) (seen : Finset String) (out : List String)
    (hc1 : op ∈ side) (hc2 : op ∉ seen) :
    last_from_history_aux side n (op :: rest) seen out =
      if n ≤ out.length + 1 then out ++ [op]
      else last_from_history_aux side n rest (insert op seen) (out ++ [op]) := by
  simp [last_from_history_aux, hc1, hc2]

theorem last_from_history_aux_cons_miss (side : Finset String) (n : Nat)
    (op : String) (rest : List String) (seen : Finset String) (out : List String)
    (hc : ¬ (op ∈ side ∧ op ∉ seen)) :
    last_from_history_aux side n (op :: rest) seen out =
      if n ≤ out.length then out else last_from_history_aux side n rest seen out := by
  simp only [last_from_history_aux, if_neg hc]

theorem last_from_history_aux_eq (side : Finset String) (n : Nat) :
    ∀ (l : List String) (seen : Finset String) (out : List String), out.length < n →
      last_from_history_aux side n l seen out =
        out ++ (distinctFilter side seen l).take (n - out.length) := by
  intro l
  induction l with
  | nil => intro seen out hlt; simp [last_from_history_aux, distinctFilter]
  | cons op rest ih =>
    intro seen out hlt
    by_cases hc : op ∈ side ∧ op ∉ seen
    · obtain ⟨hc1, hc2⟩ := hc
      rw [last_from_history_aux_cons_hit side n op rest seen out hc1 hc2]
      have hdf : distinctFilter side seen (op :: rest) =
          op :: distinctFilter side (insert op seen) rest := by
        simp [distinctFilter, hc1, hc2]
      by_cases hn : n ≤ out.length + 1
      · have htake : n - out.length = 1 := by omega
        simp [hn, hdf, htake]
      · push_neg at hn
        obtain ⟨m, hm⟩ : ∃ m, n - out.length = m + 1 :=
          ⟨n - out.length - 1, by omega⟩
        have hm' : n - (out.length + 1) = m := by omega
        rw [if_neg (by omega), ih (insert op seen) (out ++ [op]) (by simp; omega)]
        simp [hdf, hm, hm', List.take_succ_cons]
    · have hdf : distinctFilter side seen (op :: rest) =
          distinctFilter side seen rest := by
        simp only [distinctFilter, if_neg hc]
      rw [last_from_history_aux_cons_miss side n op rest seen out hc,
        if_neg hlt.not_le, ih seen out hlt, hdf]

/-- C7 (amended: limit at least 1): for any positive limit `n`,
`last_from_history` returns the first `n` distinct operators of the given
side encountered while walking the history from most recent to oldest,
in most-recent-first order — operators of the other side and repeated
occurrences are skipped, and fewer than `n` are returned when fewer exist. -/
theorem last_from_history_take (p : PlayerState) (side : Finset String)
    (n : Nat) (h : 1 ≤ n) :
    p.last_from_history side n = (distinctFilter side ∅ p.history.reverse).take n := by
  have := last_from_history_aux_eq side n p.history.reverse ∅ [] (by simpa using h)
  simpa [PlayerState.last_from_history] using this

/-- Witness for C7 at limit 2 on the history ["Ash", "Mute", "Ace", "Ash"]. -/
theorem last_from_history_take_witness :
    1 ≤ 2 ∧
    PlayerState.last_from_history ⟨"Ama", 0, ∅, ["Ash", "Mute", "Ace", "Ash"]⟩ ATT_SET 2 =
      (distinctFilter ATT_SET ∅
        (["Ash", "Mute", "Ace", "Ash"] : List String).reverse).take 2 :=
  ⟨by decide,
   last_from_history_take ⟨"Ama", 0, ∅, ["Ash", "Mute", "Ace", "Ash"]⟩ ATT_SET 2 (by decide)⟩

/-- C7 counterexample: with the limit 0 the claim fails — on the history
["Ash"] the code returns one attacker, not the first 0 (i.e. none): the
`len(out) >= n` break is only tested after the current item has already been
appended. -/
theorem last_from_history_zero_counterexample :
    PlayerState.last_from_history ⟨"Ama", 0, ∅, ["Ash"]⟩ ATT_SET 0 = ["Ash"] ∧
    PlayerState.last_from_history ⟨"Ama", 0, ∅, ["Ash"]⟩ ATT_SET 0 ≠
      (distinctFilter ATT_SET ∅ (["Ash"] : List String).reverse).take 0 := by
  constructor
  · decide
  · decide

/-! ## split_list lemmas (C10) -/

theorem split_list_go_eq (max_chars : Nat) :
    ∀ (items chunks cur : List PyStr) (cur_len : Nat),
      split_list_go max_chars items chunks cur cur_len =
        chunks ++ (segs max_chars items cur cur_len).map joinCS := by
  intro items
  induction items with
  | nil =>
    intro chunks cur cur_len
    by_cases h : cur = [] <;> simp [split_list_go, segs, h]
  | cons itm rest ih =>
    intro chunks cur cur_len
    by_cases h : max_chars < cur_len + ((if cur = [] then 0 else 2) + itm.length) <;>
      simp [split_list_go, segs, h, ih]

theorem segs_flatten (max_chars : Nat) :
    ∀ (items cur : List PyStr) (cur_len : Nat),
      (segs max_chars items cur cur_len).flatten = cur ++ items := by
  intro items
  induction items with
  | nil =>
    intro cur cur_len
    by_cases h : cur = [] <;> simp [segs, h]
  | cons itm rest ih =>
    intro cur cur_len
    by_cases h : max_chars < cur_len + ((if cur = [] then 0 else 2) + itm.length) <;>
      simp [segs, h, ih]

theorem joinCS_append_singleton (cur : List PyStr) (itm : PyStr) :
    joinCS (cur ++ [itm]) = if cur = [] then itm else joinCS cur ++ commaSpace ++ itm := by
  induction cur with
  | nil => simp [joinCS]
  | cons x xs ih =>
    cases xs with
    | nil => simp [joinCS]
    | cons y ys =>
      have hne : (y :: ys : List PyStr) ≠ [] := by simp
      calc joinCS ((x :: y :: ys) ++ [itm])
          = x ++ commaSpace ++ joinCS ((y :: ys) ++ [itm]) := rfl
        _ = x ++ commaSpace ++ (joinCS (y :: ys) ++ commaSpace ++ itm) := by
            rw [ih]; simp [hne]
        _ = (x ++ commaSpace ++ joinCS (y :: ys)) ++ commaSpace ++ itm := by
            simp [List.append_assoc]
        _ = (if (x :: y :: ys : List PyStr) = [] then itm
             else joinCS (x :: y :: ys) ++ commaSpace ++ itm) := by simp [joinCS]

theorem joinCS_length_append (cur : List PyStr) (itm : PyStr) :
    (joinCS (cur ++ [itm])).length =
      (if cur = [] then 0 else (joinCS cur).length + 2) + itm.length := by
  by_cases h : cur = [] <;> simp [joinCS_append_singleton, h, commaSpace, joinCS] <;> omega

theorem segs_joined_le (max_chars : Nat) :
    ∀ (items cur : List PyStr) (cur_len : Nat),
      (∀ itm ∈ items, itm.length ≤ max_chars) →
      cur_len = (joinCS cur).length →
      cur_len ≤ max_chars →
      ∀ c ∈ (segs max_chars items cur cur_len).map joinCS, c.length ≤ max_chars := by
  intro items
  induction items with
  | nil =>
    intro cur cur_len hitems hlen hle c hc
    by_cases h : cur = [] <;> simp [segs, h] at hc
    subst hc; omega
  | cons itm rest ih =>
    intro cur cur_len hitems hlen hle c hc
    have hitm : itm.length ≤ max_chars := hitems itm (by simp)
    have hrest : ∀ i ∈ rest, i.length ≤ max_chars := fun i hi => hitems i (by simp [hi])
    by_cases h : max_chars < cur_len + ((if cur = [] then 0 else 2) + itm.length)
    · simp only [segs, if_pos h, List.map_cons, List.mem_cons] at hc
      rcases hc with rfl | hc
      · omega
      · exact ih [itm] itm.length hrest (by simp [joinCS]) hitm c hc
    · simp only [segs, if_neg h] at hc
      refine ih (cur ++ [itm]) _ hrest ?_ (by omega) c hc
      rw [joinCS_length_append]
      by_cases hcur : cur = [] <;> simp [hcur, joinCS] at hlen ⊢ <;> omega

theorem segs_elems (max_chars : Nat) :
    ∀ (items cur : List PyStr) (cur_len : Nat),
      (∀ itm ∈ items, itm.length ≤ max_chars ∧ hasCS itm = false) →
      (∀ itm ∈ cur, hasCS itm = false) →
      (cur = [] → cur_len = 0) →
      ∀ seg ∈ segs max_chars items cur cur_len,
        seg ≠ [] ∧ ∀ x ∈ seg, hasCS x = false := by
  intro items
  induction items with
  | nil =>
    intro cur cur_len _ hcur _ seg hseg
    by_cases h : cur = [] <;> simp [segs, h] at hseg
    subst hseg
    exact ⟨h, hcur⟩
  | cons itm rest ih =>
    intro cur cur_len hitems hcur hcz seg hseg
    have hitm := hitems itm (by simp)
    have hrest : ∀ i ∈ rest, i.length ≤ max_chars ∧ hasCS i = false :=
      fun i hi => hitems i (by simp [hi])
    by_cases h : max_chars < cur_len + ((if cur = [] then 0 else 2) + itm.length)
    · simp only [segs, if_pos h, List.mem_cons] at hseg
      rcases hseg with rfl | hseg
      · refine ⟨?_, hcur⟩
        intro hnil
        rw [hnil] at h
        simp [hcz hnil] at h
        omega
      · exact ih [itm] itm.length hrest (by simpa using hitm.2) (by simp) seg hseg
    · simp only [segs, if_neg h] at hseg
      refine ih (cur ++ [itm]) _ hrest ?_ (by simp) seg hseg
      intro x hx
      rcases List.mem_append.mp hx with hx | hx
      · exact hcur x hx
      · simp at hx; subst hx; exact hitm.2

theorem splitCSAux_append (x : PyStr) :
    hasCS x = false →
    ∀ (s : PyStr) (acc : PyStr), (s = [] ∨ ∃ t, s = ',' :: t) →
      splitCSAux (x ++ s) acc = splitCSAux s (acc ++ x) := by
  induction x with
  | nil => intro _ s acc _; simp
  | cons c1 x ih =>
    intro hx s acc hs
    cases x with
    | nil =>
      rcases hs with rfl | ⟨t, rfl⟩
      · simp [splitCSAux]
      · have hns : ¬ (c1 = ',' ∧ (',' : Char) = ' ') := by simp
        simp [splitCSAux, hns]
    | cons c2 x' =>
      have h12 : ¬ (c1 = ',' ∧ c2 = ' ') := by
        intro hcc
        simp [hasCS, hcc.1, hcc.2] at hx
      have hx' : hasCS (c2 :: x') = false := by
        simpa [hasCS, h12] using hx
      have step : splitCSAux (c1 :: c2 :: (x' ++ s)) acc =
          splitCSAux (c2 :: (x' ++ s)) (acc ++ [c1]) := by
        simp [splitCSAux, h12]
      calc splitCSAux ((c1 :: c2 :: x') ++ s) acc
          = splitCSAux (c2 :: (x' ++ s)) (acc ++ [c1]) := step
        _ = splitCSAux ((c2 :: x') ++ s) (acc ++ [c1]) := rfl
        _ = splitCSAux s ((acc ++ [c1]) ++ (c2 :: x')) := ih hx' s (acc ++ [c1]) hs
        _ = splitCSAux s (acc ++ (c1 :: c2 :: x')) := by simp

theorem splitCS_joinCS (seg : List PyStr) :
    seg ≠ [] → (∀ x ∈ seg, hasCS x = false) →
    splitCS (joinCS seg) = seg := by
  induction seg with
  | nil => intro h _; exact absurd rfl h
  | cons x seg ih =>
    intro _ hsep
    have hx : hasCS x = false := hsep x (by simp)
    cases seg with
    | nil =>
      have := splitCSAux_append x hx [] [] (Or.inl rfl)
      simpa [splitCS, joinCS, splitCSAux] using this
    | cons y seg' =>
      have hsep' : ∀ z ∈ y :: seg', hasCS z = false :=
        fun z hz => hsep z (by simp [hz])
      have hjoin : joinCS (x :: y :: seg') = x ++ (',' :: ' ' :: joinCS (y :: seg')) := by
        simp [joinCS, commaSpace]
      have hcut : splitCSAux (',' :: ' ' :: joinCS (y :: seg')) x =
          x :: splitCSAux (joinCS (y :: seg')) [] := by
        simp [splitCSAux]
      calc splitCS (joinCS (x :: y :: seg'))
          = splitCSAux (x ++ (',' :: ' ' :: joinCS (y :: seg'))) [] := by
            rw [splitCS, hjoin]
        _ = splitCSAux (',' :: ' ' :: joinCS (y :: seg')) x := by
            simpa using splitCSAux_append x hx _ [] (Or.inr ⟨_, rfl⟩)
        _ = x :: splitCSAux (joinCS (y :: seg')) [] := hcut
        _ = x :: (y :: seg') := by
            rw [show splitCSAux (joinCS (y :: seg')) [] = splitCS (joinCS (y :: seg')) from rfl,
              ih (by simp) hsep']

/-- C10 (amended: the separator ", " must not occur inside an item, and
`max_chars` must be at least 1 so that the placeholder chunk fits): for items
of length at most `max_chars`, `split_list` returns a non-empty list of
chunks, every chunk has length at most `max_chars`, splitting each chunk on
", " and concatenating recovers exactly the input items in order, and the
empty input yields the single placeholder chunk "—". -/
theorem split_list_spec (items : List PyStr) (max_chars : Nat)
    (hmax : 1 ≤ max_chars)
    (hlen : ∀ itm ∈ items, itm.length ≤ max_chars)
    (hsep : ∀ itm ∈ items, hasCS itm = false) :
    split_list items max_chars ≠ [] ∧
    (∀ c ∈ split_list items max_chars, c.length ≤ max_chars) ∧
    (split_list items max_chars).flatMap splitCS =
      (if items = [] then [['—']] else items) ∧
    (items = [] → split_list items max_chars = [['—']]) := by
  by_cases hitems : items = []
  · subst hitems
    refine ⟨by simp [split_list, split_list_go], ?_, ?_,
      fun _ => by simp [split_list, split_list_go]⟩
    · intro c hc
      simp [split_list, split_list_go] at hc
      subst hc
      simpa using hmax
    · simp [split_list, split_list_go, splitCS, splitCSAux]
  · have hgo : split_list_go max_chars items [] [] 0 =
        (segs max_chars items [] 0).map joinCS := by
      simpa using split_list_go_eq max_chars items [] [] 0
    have hflat : (segs max_chars items [] 0).flatten = items := by
      simpa using segs_flatten max_chars items [] 0
    have hne : segs max_chars items [] 0 ≠ [] := by
      intro h
      rw [h] at hflat
      exact hitems hflat.symm
    have hmapne : (segs max_chars items [] 0).map joinCS ≠ [] := by simpa using hne
    have hsplit : split_list items max_chars = (segs max_chars items [] 0).map joinCS := by
      simp [split_list, hgo, hmapne]
    have helems := segs_elems max_chars items [] 0
      (fun i hi => ⟨hlen i hi, hsep i hi⟩) (by simp) (fun _ => rfl)
    refine ⟨by rw [hsplit]; exact hmapne, ?_, ?_, fun h => absurd h hitems⟩
    · intro c hc
      rw [hsplit] at hc
      exact segs_joined_le max_chars items [] 0 hlen (by simp [joinCS]) (by omega) c hc
    · rw [hsplit, if_neg hitems, List.flatMap_map]
      have hinv : ∀ seg ∈ segs max_chars items [] 0, splitCS (joinCS seg) = seg :=
        fun seg hseg => splitCS_joinCS seg (helems seg hseg).1 (helems seg hseg).2
      calc (segs max_chars items [] 0).flatMap (fun seg => splitCS (joinCS seg))
          = ((segs max_chars items [] 0).map (fun seg => splitCS (joinCS seg))).flatten :=
            List.flatMap_def _ _
        _ = ((segs max_chars items [] 0).map (fun seg => seg)).flatten := by
            rw [List.map_congr_left hinv]
        _ = items := by simpa using hflat

/-- Witness for C10 on the two items "Ash" and "Ace" with the default limit. -/
theorem split_list_spec_witness :
    (1 ≤ 900 ∧
     (∀ itm ∈ ([['A','s','h'], ['A','c','e']] : List PyStr), itm.length ≤ 900) ∧
     (∀ itm ∈ ([['A','s','h'], ['A','c','e']] : List PyStr), hasCS itm = false)) ∧
    (split_list [['A','s','h'], ['A','c','e']] 900 ≠ [] ∧
     (∀ c ∈ split_list [['A','s','h'], ['A','c','e']] 900, c.length ≤ 900) ∧
     (split_list [['A','s','h'], ['A','c','e']] 900).flatMap splitCS =
       (if ([['A','s','h'], ['A','c','e']] : List PyStr) = [] then [['—']]
        else [['A','s','h'], ['A','c','e']]) ∧
     (([['A','s','h'], ['A','c','e']] : List PyStr) = [] →
       split_list [['A','s','h'], ['A','c','e']] 900 = [['—']])) :=
  ⟨⟨by decide, by decide, by decide⟩,
   split_list_spec [['A','s','h'], ['A','c','e']] 900 (by decide) (by decide) (by decide)⟩

/-- C10 counterexample: the single item "a, b" (which contains the separator
and has length 4 ≤ 900) comes back as the chunk "a, b", but splitting that
chunk on ", " yields the two items "a" and "b", not the original item — the
claim's recovery property fails without a no-separator hypothesis. -/
theorem split_list_sep_counterexample :
    (∀ itm ∈ ([[ 'a', ',', ' ', 'b' ]] : List PyStr), itm.length ≤ 900) ∧
    split_list [['a', ',', ' ', 'b']] 900 = [['a', ',', ' ', 'b']] ∧
    (split_list [['a', ',', ' ', 'b']] 900).flatMap splitCS = [['a'], ['b']] ∧
    (split_list [['a', ',', ' ', 'b']] 900).flatMap splitCS ≠ [['a', ',', ' ', 'b']] := by
  refine ⟨by decide, by decide, by decide, by decide⟩
